import Mathlib

/-!
Verification of the `CloudantDatabase` client (python-cloudant, `cloudant/database.py`):
a shallow embedding of the database collection's operations — existence check,
creation, metadata, key listing, item access, document creation, and the
paginated cursor-based remote iteration — together with proofs of the
specification's claims about them.

The remote document store is external to the repository; it is modelled as a
list of listing rows sorted by document identifier (CouchDB key order), and a
listing request with `startkey`/`limit` parameters returns the matching prefix
of that order.  The HTTP session is modelled by passing the responses it would
return; network activity is recorded as explicit call/event lists so that
claims about which requests are issued can be stated.
-/

/-- A row of a `_all_docs` listing response: the document identifier and (when
`include_docs` is set) the document content, kept opaque as a string. -/
structure Row where
  id : String
  doc : String
deriving DecidableEq, Repr

/-- The `startkey` parameter sent by the iteration protocol: initially the JSON
integer `0` (which sorts before every string in CouchDB key order), afterwards
a document identifier. -/
inductive StartKey where
  | beginning
  | key (s : String)
deriving DecidableEq, Repr

/-- CouchDB collation of a start key against a document identifier: the JSON
integer `0` sorts before every string, and strings compare lexicographically
(on their character lists, which is the standard string order).  `startkey` is
inclusive. -/
def startKeyLE : StartKey → String → Bool
  | StartKey.beginning, _ => true
  | StartKey.key s, t => decide (s.toList ≤ t.toList)

/-- The local cache: the `dict` superclass of `CloudantDatabase`, an
insertion-ordered mapping from document identifier to content.  Updates are
modelled by prepending, and `List.lookup` returns the most recent binding. -/
abbrev Cache := List (String × String)

/-- Response of the remote store to `all_docs` (GET `_all_docs`) with optional
`startkey` and `limit` parameters: the rows with identifier at or after the
start key, up to `limit` of them, in key order.  With no parameters the whole
listing is returned. -/
def all_docs (remote : List Row) (startkey : Option StartKey) (limit : Option Nat) : List Row :=
  let rows :=
    match startkey with
    | none => remote
    | some k => remote.filter (fun r => startKeyLE k r.id)
  match limit with
  | none => rows
  | some n => rows.take n

/-- Network calls issued by collection-level operations. -/
inductive NetCall where
  | listAllDocs
  | docExists (id : String)
  | docFetch (id : String)
deriving DecidableEq, Repr

/-- Observable events of the iteration generator, in program order: a page
request (`all_docs` with the given `startkey` and `limit`), a cache
registration (`dict.__setitem__`), or a `yield` of a listing row. -/
inductive Event where
  | fetchPage (startkey : StartKey) (limit : Nat)
  | cachePut (id : String) (doc : String)
  | yieldRow (r : Row)
deriving DecidableEq, Repr

/-- The per-pass yield loop of `__iter__`: for each remaining row, first
`super().__setitem__(doc['id'], doc['doc'])`, then `yield doc`. -/
def yieldPass : List Row → List Event
  | [] => []
  | r :: rs => Event.cachePut r.id r.doc :: Event.yieldRow r :: yieldPass rs

/-- The `while next_startkey is not None` loop of `CloudantDatabase.__iter__`
(remote branch), as a fuel-indexed event trace.  Each pass requests a page of
`fetch_limit + 1` rows from the cursor; if more than `fetch_limit` rows come
back the last row is popped and its identifier becomes the next cursor,
otherwise the cursor becomes the terminal marker; the remaining rows are cached
and yielded in order.  `none` means the fuel was exhausted before the loop
terminated. -/
def iterAux (remote : List Row) (L : Nat) : Nat → StartKey → Option (List Event)
  | 0, _ => none
  | fuel + 1, cursor =>
    let docs := all_docs remote (some cursor) (some (L + 1))
    if L < docs.length then
      match docs.getLast? with
      | none => none
      | some lastRow =>
        match iterAux remote L fuel (StartKey.key lastRow.id) with
        | none => none
        | some rest => some (Event.fetchPage cursor (L + 1) :: (yieldPass docs.dropLast ++ rest))
    else
      some (Event.fetchPage cursor (L + 1) :: yieldPass docs)

/-- `CloudantDatabase.__iter__(remote)`: with `remote=True` the paginated loop
starting from the integer-`0` start key; with `remote=False` the body evaluates
`super().__iter__()` but discards the result, so the generator finishes without
yielding anything. -/
def iterDB (remote : List Row) (L : Nat) (cache : Cache) (remoteFlag : Bool)
    (fuel : Nat) : Option (List Event) :=
  if remoteFlag then
    iterAux remote L fuel StartKey.beginning
  else
    let _localKeys := cache.map Prod.fst
    some []

/-- Rows yielded by a trace, in order. -/
def yieldedRows : List Event → List Row
  | [] => []
  | Event.yieldRow r :: es => r :: yieldedRows es
  | Event.fetchPage _ _ :: es => yieldedRows es
  | Event.cachePut _ _ :: es => yieldedRows es

/-- Number of page requests in a trace. -/
def fetchCount : List Event → Nat
  | [] => 0
  | Event.fetchPage _ _ :: es => fetchCount es + 1
  | Event.cachePut _ _ :: es => fetchCount es
  | Event.yieldRow _ :: es => fetchCount es

/-- Helper for `afterLastFetch`: accumulates events seen since the most recent
page request. -/
def afterLastFetchAux : List Event → List Event → List Event
  | acc, [] => acc
  | _, Event.fetchPage _ _ :: es => afterLastFetchAux [] es
  | acc, Event.cachePut i d :: es => afterLastFetchAux (acc ++ [Event.cachePut i d]) es
  | acc, Event.yieldRow r :: es => afterLastFetchAux (acc ++ [Event.yieldRow r]) es

/-- The events following the last page request of a trace: the processing of
the final page. -/
def afterLastFetch (tr : List Event) : List Event := afterLastFetchAux [] tr

/-- The remote store's listing is sorted strictly by document identifier
(CouchDB key order; identifiers are unique). -/
def SortedById (l : List Row) : Prop :=
  l.Pairwise (fun a b => a.id.toList < b.id.toList)

/-- Reference form of the remote iteration trace, driven directly by the list
of not-yet-consumed rows: used to relate `iterAux` to plain list operations. -/
def traceFor (L : Nat) : Nat → StartKey → List Row → List Event
  | 0, _, _ => []
  | fuel + 1, cursor, s =>
    if h : L < s.length then
      Event.fetchPage cursor (L + 1) ::
        (yieldPass (s.take L) ++
          traceFor L fuel (StartKey.key (s.get ⟨L, h⟩).id) (s.drop L))
    else
      Event.fetchPage cursor (L + 1) :: yieldPass s

/-- Checks that every `yieldRow r` event is immediately preceded by
`cachePut r.id r.doc`, given the event preceding the list (if any). -/
def cbAux : Option Event → List Event → Bool
  | _, [] => true
  | prev, e :: rest =>
    (match e with
     | Event.yieldRow r => decide (prev = some (Event.cachePut r.id r.doc))
     | Event.fetchPage _ _ => true
     | Event.cachePut _ _ => true) && cbAux (some e) rest

/-- Replay of one event against the cache (only `cachePut` changes it). -/
def applyEvent (m : Cache) : Event → Cache
  | Event.cachePut i d => (i, d) :: m
  | Event.fetchPage _ _ => m
  | Event.yieldRow _ => m

/-- The cache contents after replaying a trace against an initially empty
cache. -/
def cacheStateOf (tr : List Event) : Cache := tr.foldl applyEvent []

/-- An HTTP response as consumed by this layer: status code, body text, and
the parsed JSON body (only integer fields are needed, for `doc_count`). -/
structure HttpResp where
  status : Nat
  text : String
  body : List (String × Nat)
deriving DecidableEq, Repr

/-- Python-level errors surfaced by the operations. -/
inductive PyErr where
  | attributeError (name : String)
  | keyError (key : String)
  | httpError (status : Nat)
deriving DecidableEq, Repr

/-- Modelled from the spec: the error type of the missing `cloudant/errors.py`
(`CloudantException`) — a human-readable message plus an optional status
code. -/
structure CloudantException where
  msg : String
  code : Option Nat
deriving DecidableEq, Repr

/-- HTTP requests issued against the database URL. -/
inductive HttpCall where
  | get (url : String)
  | put (url : String)
  | delete (url : String)
deriving DecidableEq, Repr

/-- `CloudantDatabase.exists`: GET the database URL and compare the status
code with 200.  The body has no raise path, so the result is a plain
boolean. -/
def existsDb (resp : HttpResp) : Bool := resp.status == 200

/-- `CloudantDatabase.metadata`: GET the database URL, raise for an error
status, return the parsed body.  Modelled from the spec: the transport's
raise-for-status helper raises on any non-2xx response. -/
def metadata (resp : HttpResp) : Except PyErr (List (String × Nat)) :=
  if 200 ≤ resp.status && resp.status ≤ 299 then
    Except.ok resp.body
  else
    Except.error (PyErr.httpError resp.status)

/-- Attributes bound on a `CloudantDatabase` instance by `__init__`. -/
def instanceAttrs : List String :=
  ["_cloudant_account", "_database_host", "_database_name", "_r_session",
   "_next_startkey", "_fetch_limit"]

/-- Attributes defined on the `CloudantDatabase` class body. -/
def classAttrs : List String :=
  ["_database_url", "exists", "metadata", "doc_count", "create_document",
   "new_document", "create", "delete", "all_docs", "keys", "__getitem__",
   "__iter__", "__init__"]

/-- Python attribute resolution on a `CloudantDatabase` object. -/
def hasAttr (name : String) : Bool :=
  (instanceAttrs ++ classAttrs).contains name

/-- `CloudantDatabase.doc_count`: evaluates `self._metadata().get('doc_count')`.
The attribute access is resolved first; if it fails, an `AttributeError` is
raised before any request is made.  On success it would return the optional
`doc_count` field of the metadata body. -/
def doc_count (meta : List (String × Nat)) : Except PyErr (Option Nat) :=
  if hasAttr "_metadata" then
    Except.ok (List.lookup "doc_count" meta)
  else
    Except.error (PyErr.attributeError "_metadata")

/-- `CloudantDatabase.create`: if the existence check succeeds, return `self`
immediately; otherwise PUT the database URL, succeeding on status 201 and
raising a `CloudantException` (message naming the URL and the response text,
code carrying the status) otherwise.  The result records the outcome and the
HTTP calls issued. -/
def createDb (url : String) (getResp putResp : HttpResp) :
    Except CloudantException Unit × List HttpCall :=
  if existsDb getResp then
    (Except.ok (), [HttpCall.get url])
  else if putResp.status == 201 then
    (Except.ok (), [HttpCall.get url, HttpCall.put url])
  else
    (Except.error
       (CloudantException.mk
         ("Unable to create database " ++ url ++ ": Reason:" ++ putResp.text)
         (some putResp.status)),
     [HttpCall.get url, HttpCall.put url])

/-- Result of `CloudantDatabase.keys`: the identifiers returned, the cache
afterwards, and the network calls issued. -/
structure KeysOutcome where
  result : List String
  cacheAfter : Cache
  calls : List NetCall
deriving DecidableEq, Repr

/-- `CloudantDatabase.keys(remote)`: with `remote=False` the locally cached
identifiers (`super().keys()`, no network); with `remote=True` the identifiers
of the rows of an unfiltered `all_docs()` listing, without touching the
cache. -/
def keysOp (remote : List Row) (cache : Cache) (remoteFlag : Bool) : KeysOutcome :=
  if remoteFlag = false then
    KeysOutcome.mk (cache.map Prod.fst) cache []
  else
    KeysOutcome.mk ((all_docs remote none none).map Row.id) cache [NetCall.listAllDocs]

/-- `CloudantDatabase.keys()` called without an argument: the declared default
of the `remote` parameter is `False`. -/
def keysDefault (remote : List Row) (cache : Cache) : KeysOutcome :=
  keysOp remote cache false

/-- Result of an item access: either a value or a raised `KeyError`. -/
inductive GetResult where
  | found (v : String)
  | keyError (k : String)
deriving DecidableEq, Repr

/-- Outcome of `__getitem__`: result, cache afterwards, network calls
issued. -/
structure GetOutcome where
  result : GetResult
  cacheAfter : Cache
  calls : List NetCall
deriving DecidableEq, Repr

/-- `CloudantDatabase.__getitem__`: `key in self.keys()` consults `keys()`
with its default `remote=False`, i.e. the local cache; on a hit the cached
value is returned with no network activity.  Otherwise a `CloudantDocument`
is constructed and its remote existence probed; if it exists it is fetched,
cached under `key` and returned, else `KeyError(key)` is raised.  The
document's `exists`/`fetch` (the missing `cloudant/document.py`) are modelled
from the spec: a remote existence probe, and population from the remote
content. -/
def getitem (remote : List Row) (cache : Cache) (key : String) : GetOutcome :=
  match List.lookup key cache with
  | some v => GetOutcome.mk (GetResult.found v) cache []
  | none =>
    if (remote.map Row.id).contains key then
      let content := ((remote.find? (fun r => r.id == key)).map Row.doc).getD ""
      GetOutcome.mk (GetResult.found content) ((key, content) :: cache)
        [NetCall.docExists key, NetCall.docFetch key]
    else
      GetOutcome.mk (GetResult.keyError key) cache [NetCall.docExists key]

/-- Modelled from the spec: the item-access procedure as the claim states it —
first the remote-confirmed lookup (an unfiltered listing request); if the key
is among the remote identifiers, return the locally cached value (a missing
entry surfaces as a keyed-lookup failure); otherwise probe remote existence,
fetch, cache and return, else raise not-found. -/
def getitemClaimed (remote : List Row) (cache : Cache) (key : String) : GetOutcome :=
  if ((all_docs remote none none).map Row.id).contains key then
    match List.lookup key cache with
    | some v => GetOutcome.mk (GetResult.found v) cache [NetCall.listAllDocs]
    | none => GetOutcome.mk (GetResult.keyError key) cache [NetCall.listAllDocs]
  else if (remote.map Row.id).contains key then
    let content := ((remote.find? (fun r => r.id == key)).map Row.doc).getD ""
    GetOutcome.mk (GetResult.found content) ((key, content) :: cache)
      [NetCall.listAllDocs, NetCall.docExists key, NetCall.docFetch key]
  else
    GetOutcome.mk (GetResult.keyError key) cache
      [NetCall.listAllDocs, NetCall.docExists key]

/-- Field maps of documents created through `create_document`. -/
abbrev DocFields := List (String × String)

/-- `CloudantDatabase.create_document(data, throw_on_exists)`: build a
`CloudantDocument` from `data` (using `data.get('_id')`), update it with
`data`'s fields, persist it (`doc.create()` — modelled from the spec: an
idempotent persist that assigns `assignedId` when no identifier is present),
register it in the cache under `doc['_id']`, and return it.  The
`throwOnExists` parameter mirrors the Python `throw_on_exists` keyword. -/
def create_document (assignedId : String) (cache : List (String × DocFields))
    (data : DocFields) (throwOnExists : Bool) :
    DocFields × List (String × DocFields) :=
  let doc :=
    match List.lookup "_id" data with
    | some _ => data
    | none => ("_id", assignedId) :: data
  let docId :=
    match List.lookup "_id" data with
    | some i => i
    | none => assignedId
  (doc, (docId, doc) :: cache)

/-! ### Helper lemmas -/

lemma find_of_contains (remote : List Row) (key : String)
    (h : (remote.map Row.id).contains key = true) :
    ∃ r, remote.find? (fun x => x.id == key) = some r ∧ r.id = key := by
  have hmem : key ∈ remote.map Row.id := by
    simpa using h
  obtain ⟨r, hr, hid⟩ := List.mem_map.mp hmem
  have hsome : (remote.find? (fun x => x.id == key)).isSome = true := by
    rw [List.find?_isSome]
    exact ⟨r, hr, by simp [hid]⟩
  obtain ⟨r', hr'⟩ := Option.isSome_iff_exists.mp hsome
  refine ⟨r', hr', ?_⟩
  have := List.find?_some hr'
  simpa using this

/-! ### C4: local-only iteration -/

/-- C4 (code bug): with `remote=False`, `__iter__` evaluates
`super().__iter__()` but discards the result, so the generator performs no
page request and yields nothing at all — even when the cache is non-empty —
instead of yielding the cached contents as the claim (and the method's own
docstring) states. -/
theorem c4_local_iteration_yields_nothing :
    (∀ (remote : List Row) (L : Nat) (cache : Cache) (fuel : Nat),
       iterDB remote L cache false fuel = some []) ∧
    iterDB [] 100 [("a", "da")] false 1 = some [] ∧
    ([("a", "da")] : Cache).map Prod.fst ≠ [] := by
  refine ⟨fun remote L cache fuel => rfl, rfl, by decide⟩

/-! ### C6: keys defaults to the local mode -/

/-- C6 (counterexample): `keys` is declared `def keys(self, remote=False)`, so
a call without arguments returns the locally cached identifiers and issues no
network call, not the remote-confirmed listing the claim describes: with one
cached identifier `l` and one remote document `r`, the default call returns
`[l]` with no calls while the remote mode returns `[r]` after a listing
request. -/
theorem c6_counterexample :
    keysDefault [Row.mk "r" "dr"] [("l", "dl")] =
      KeysOutcome.mk ["l"] [("l", "dl")] [] ∧
    keysOp [Row.mk "r" "dr"] [("l", "dl")] true =
      KeysOutcome.mk ["r"] [("l", "dl")] [NetCall.listAllDocs] ∧
    keysDefault [Row.mk "r" "dr"] [("l", "dl")] ≠
      keysOp [Row.mk "r" "dr"] [("l", "dl")] true := by
  refine ⟨rfl, rfl, by decide⟩

/-- C6 (amended): `keys` defaults to the local mode (`remote=False`), returning
the cached identifiers with no remote call and no cache change; with
`remote=True` it issues the unfiltered listing request and returns the row
identifiers, without populating the cache. -/
theorem c6_keys_modes (remote : List Row) (cache : Cache) :
    keysDefault remote cache = keysOp remote cache false ∧
    keysOp remote cache false = KeysOutcome.mk (cache.map Prod.fst) cache [] ∧
    keysOp remote cache true =
      KeysOutcome.mk (remote.map Row.id) cache [NetCall.listAllDocs] := by
  refine ⟨rfl, rfl, ?_⟩
  simp [keysOp, all_docs]

/-! ### C7: doc_count -/

/-- C7 (code bug): `doc_count` evaluates `self._metadata()`, but no attribute
named `_metadata` exists on the class or instance (the method is named
`metadata`), so every call raises `AttributeError` instead of returning the
metadata's `doc_count` field.  The intended path does work: `metadata` itself
returns the parsed body on a 2xx response and raises on an error status. -/
theorem c7_doc_count_attribute_error :
    (∀ meta : List (String × Nat),
       doc_count meta = Except.error (PyErr.attributeError "_metadata")) ∧
    hasAttr "metadata" = true ∧
    hasAttr "_metadata" = false ∧
    metadata (HttpResp.mk 200 "" [("doc_count", 5)]) = Except.ok [("doc_count", 5)] ∧
    metadata (HttpResp.mk 500 "err" []) = Except.error (PyErr.httpError 500) := by
  refine ⟨fun meta => rfl, by decide, by decide, rfl, rfl⟩

/-! ### C8: idempotent database creation -/

/-- C8: `create` is idempotent on an existing database — a successful
existence check returns immediately with only the GET issued; otherwise the
PUT is issued, succeeding on status 201, and any other status raises a
`CloudantException` whose message names the target URL and the server's
response text and whose code is the status. -/
theorem c8_create_idempotent (url : String) (getResp putResp : HttpResp) :
    (existsDb getResp = true →
       createDb url getResp putResp = (Except.ok (), [HttpCall.get url])) ∧
    (existsDb getResp = false → putResp.status = 201 →
       createDb url getResp putResp =
         (Except.ok (), [HttpCall.get url, HttpCall.put url])) ∧
    (existsDb getResp = false → putResp.status ≠ 201 →
       createDb url getResp putResp =
         (Except.error
            (CloudantException.mk
              ("Unable to create database " ++ url ++ ": Reason:" ++ putResp.text)
              (some putResp.status)),
          [HttpCall.get url, HttpCall.put url])) := by
  refine ⟨fun h => ?_, fun h h201 => ?_, fun h h201 => ?_⟩
  · simp [createDb, h]
  · simp [createDb, h, h201]
  · simp [createDb, h, h201]

/-- C8 witness: a database that already exists (GET status 200) is created
without a PUT; a missing database whose PUT fails with 500 raises the typed
error carrying URL, response text and status. -/
theorem c8_witness :
    createDb "u1" (HttpResp.mk 200 "" []) (HttpResp.mk 418 "t" []) =
      (Except.ok (), [HttpCall.get "u1"]) ∧
    createDb "u" (HttpResp.mk 404 "" []) (HttpResp.mk 500 "boom" []) =
      (Except.error
         (CloudantException.mk "Unable to create database u: Reason:boom" (some 500)),
       [HttpCall.get "u", HttpCall.put "u"]) := by
  constructor
  · exact (c8_create_idempotent "u1" (HttpResp.mk 200 "" []) (HttpResp.mk 418 "t" [])).1 rfl
  · exact (c8_create_idempotent "u" (HttpResp.mk 404 "" []) (HttpResp.mk 500 "boom" [])).2.2
      (by decide) (by decide)

/-! ### C9: exists never raises -/

/-- C9: `exists` compares the GET status with 200 and returns the boolean
result; it has no raise path, returns `true` exactly on status 200, and every
other status yields `false`. -/
theorem c9_exists_never_raises (resp : HttpResp) :
    (existsDb resp = true ↔ resp.status = 200) ∧
    (resp.status ≠ 200 → existsDb resp = false) := by
  constructor
  · simp [existsDb]
  · intro h
    simp [existsDb, h]

/-- C9 witness: status 200 yields `true`; an error status (404) yields
`false`. -/
theorem c9_witness :
    existsDb (HttpResp.mk 200 "" []) = true ∧
    existsDb (HttpResp.mk 404 "nf" []) = false := by
  constructor
  · exact (c9_exists_never_raises (HttpResp.mk 200 "" [])).1.mpr rfl
  · exact (c9_exists_never_raises (HttpResp.mk 404 "nf" [])).2 (by decide)

/-! ### C10: throw_on_exists is never read -/

/-- C10: `create_document` accepts `throw_on_exists` but never reads it — for
every input, result and cache effect with the flag set coincide with those
with the flag clear. -/
theorem c10_throw_flag_unused (assignedId : String)
    (cache : List (String × DocFields)) (data : DocFields) :
    create_document assignedId cache data true =
      create_document assignedId cache data false := by
  rfl

/-! ### C5: item access checks the local cache first -/

/-- C5 (counterexample): with `k` cached locally but absent remotely,
`__getitem__` returns the cached value with no network call, whereas the
claimed procedure (remote-confirmed lookup first) would have issued the
listing request, found `k` absent remotely, probed its existence and raised
not-found. -/
theorem c5_counterexample :
    getitem [] [("k", "v")] "k" =
      GetOutcome.mk (GetResult.found "v") [("k", "v")] [] ∧
    getitemClaimed [] [("k", "v")] "k" =
      GetOutcome.mk (GetResult.keyError "k") [("k", "v")]
        [NetCall.listAllDocs, NetCall.docExists "k"] ∧
    getitem [] [("k", "v")] "k" ≠ getitemClaimed [] [("k", "v")] "k" := by
  refine ⟨rfl, rfl, by decide⟩

/-- C5 (amended): `__getitem__` first checks the local cache (`keys()` with
its default `remote=False`), returning the cached value with no network call
on a hit; on a miss it probes the key's remote existence and, when present,
fetches its content, caches it under the key and returns it; when the key is
known neither locally nor remotely it raises `KeyError` — a keyed-lookup
failure distinct from the transport error type. -/
theorem c5_getitem_local_first (remote : List Row) (cache : Cache) (key : String) :
    (∀ v, List.lookup key cache = some v →
       getitem remote cache key = GetOutcome.mk (GetResult.found v) cache []) ∧
    (List.lookup key cache = none → (remote.map Row.id).contains key = true →
       ∃ r, remote.find? (fun x => x.id == key) = some r ∧ r.id = key ∧
         getitem remote cache key =
           GetOutcome.mk (GetResult.found r.doc) ((key, r.doc) :: cache)
             [NetCall.docExists key, NetCall.docFetch key]) ∧
    (List.lookup key cache = none → (remote.map Row.id).contains key = false →
       getitem remote cache key =
         GetOutcome.mk (GetResult.keyError key) cache [NetCall.docExists key]) := by
  refine ⟨fun v hv => ?_, fun hnone hc => ?_, fun hnone hc => ?_⟩
  · simp [getitem, hv]
  · obtain ⟨r, hfind, hid⟩ := find_of_contains remote key hc
    refine ⟨r, hfind, hid, ?_⟩
    simp only [getitem, hnone, hfind]
    rw [if_pos hc]
    simp
  · have hnot : key ∉ remote.map Row.id := by simpa using hc
    simp only [getitem, hnone]
    rw [if_neg]
    simpa using hc

/-- C5 witness: a locally cached key is served from the cache with no calls;
a key unknown both locally and remotely raises `KeyError` after one existence
probe. -/
theorem c5_witness :
    getitem [] [("k", "v")] "k" =
      GetOutcome.mk (GetResult.found "v") [("k", "v")] [] ∧
    getitem [] [] "z" =
      GetOutcome.mk (GetResult.keyError "z") [] [NetCall.docExists "z"] := by
  constructor
  · exact (c5_getitem_local_first [] [("k", "v")] "k").1 "v" rfl
  · exact (c5_getitem_local_first [] [] "z").2.2 rfl rfl

/-! ### Trace utility lemmas -/

lemma yieldedRows_append (a b : List Event) :
    yieldedRows (a ++ b) = yieldedRows a ++ yieldedRows b := by
  induction a with
  | nil => rfl
  | cons e es ih => cases e <;> simp [yieldedRows, ih]

lemma yieldedRows_yieldPass (rows : List Row) :
    yieldedRows (yieldPass rows) = rows := by
  induction rows with
  | nil => rfl
  | cons r rs ih => simp [yieldPass, yieldedRows, ih]

lemma fetchCount_append (a b : List Event) :
    fetchCount (a ++ b) = fetchCount a + fetchCount b := by
  induction a with
  | nil => simp [fetchCount]
  | cons e es ih => cases e <;> simp [fetchCount, ih] <;> omega

lemma fetchCount_yieldPass (rows : List Row) : fetchCount (yieldPass rows) = 0 := by
  induction rows with
  | nil => rfl
  | cons r rs ih => simp [yieldPass, fetchCount, ih]

lemma afterLastFetchAux_nofetch (xs : List Event) (hx : fetchCount xs = 0) :
    ∀ (acc ys : List Event),
      afterLastFetchAux acc (xs ++ ys) = afterLastFetchAux (acc ++ xs) ys := by
  induction xs with
  | nil => intro acc ys; simp
  | cons e es ih =>
    intro acc ys
    cases e with
    | fetchPage k n => simp [fetchCount] at hx
    | cachePut i d =>
      have hx' : fetchCount es = 0 := by simpa [fetchCount] using hx
      simp only [List.cons_append, afterLastFetchAux]
      have := ih hx' (acc ++ [Event.cachePut i d]) ys
      simpa [List.append_assoc] using this
    | yieldRow r =>
      have hx' : fetchCount es = 0 := by simpa [fetchCount] using hx
      simp only [List.cons_append, afterLastFetchAux]
      have := ih hx' (acc ++ [Event.yieldRow r]) ys
      simpa [List.append_assoc] using this

lemma afterLastFetchAux_self (xs : List Event) (hx : fetchCount xs = 0)
    (acc : List Event) : afterLastFetchAux acc xs = acc ++ xs := by
  have := afterLastFetchAux_nofetch xs hx acc []
  simpa using this

lemma afterLastFetchAux_irrel (l : List Event) (hl : 0 < fetchCount l) :
    ∀ acc acc', afterLastFetchAux acc l = afterLastFetchAux acc' l := by
  induction l with
  | nil => simp [fetchCount] at hl
  | cons e es ih =>
    intro acc acc'
    cases e with
    | fetchPage k n => simp [afterLastFetchAux]
    | cachePut i d =>
      have hl' : 0 < fetchCount es := by simpa [fetchCount] using hl
      simp only [afterLastFetchAux]
      exact ih hl' _ _
    | yieldRow r =>
      have hl' : 0 < fetchCount es := by simpa [fetchCount] using hl
      simp only [afterLastFetchAux]
      exact ih hl' _ _

/-! ### Sorted-listing lemmas: the cursor filter selects a suffix -/

lemma startKeyLE_trans (c : StartKey) (x y : String)
    (h1 : startKeyLE c x = true) (h2 : x.toList ≤ y.toList) :
    startKeyLE c y = true := by
  cases c with
  | beginning => rfl
  | key s =>
    have hx : s.toList ≤ x.toList := of_decide_eq_true h1
    exact decide_eq_true (le_trans hx h2)

lemma sorted_filter_ge_drop :
    ∀ (s : List Row), s.Pairwise (fun a b => a.id.toList < b.id.toList) →
      ∀ (i : Nat) (h : i < s.length),
        s.filter (fun r => decide ((s.get ⟨i, h⟩).id.toList ≤ r.id.toList)) = s.drop i := by
  intro s
  induction s with
  | nil => intro _ i h; exact absurd h (by simp)
  | cons a t ih =>
    intro hp i h
    rcases List.pairwise_cons.mp hp with ⟨ha, ht⟩
    cases i with
    | zero =>
      show (a :: t).filter (fun r => decide (a.id.toList ≤ r.id.toList)) = a :: t
      apply List.filter_eq_self.mpr
      intro b hb
      rcases List.mem_cons.mp hb with rfl | hbt
      · simp
      · exact decide_eq_true (le_of_lt (ha b hbt))
    | succ i =>
      have h' : i < t.length := Nat.lt_of_succ_lt_succ h
      show (a :: t).filter
          (fun r => decide ((t.get ⟨i, h'⟩).id.toList ≤ r.id.toList)) = t.drop i
      rw [List.filter_cons]
      have hlt : a.id.toList < (t.get ⟨i, h'⟩).id.toList := ha _ (List.get_mem t i h')
      have hfalse : decide ((t.get ⟨i, h'⟩).id.toList ≤ a.id.toList) = false :=
        decide_eq_false (not_le_of_lt hlt)
      rw [hfalse]
      simpa using ih ht i h'

lemma filter_cursor_advance (remote : List Row) (hs : SortedById remote)
    (cursor : StartKey) (s : List Row)
    (hfil : remote.filter (fun r => startKeyLE cursor r.id) = s)
    (i : Nat) (h : i < s.length) :
    remote.filter (fun r => startKeyLE (StartKey.key ((s.get ⟨i, h⟩).id)) r.id) =
      s.drop i := by
  have hsorted : s.Pairwise (fun a b => a.id.toList < b.id.toList) := by
    rw [← hfil]
    exact List.Pairwise.sublist (List.filter_sublist remote) hs
  have hmem : s.get ⟨i, h⟩ ∈ s := List.get_mem s i h
  have hcur : startKeyLE cursor ((s.get ⟨i, h⟩).id) = true := by
    have hmem' : s.get ⟨i, h⟩ ∈ remote.filter (fun r => startKeyLE cursor r.id) := by
      rw [hfil]; exact hmem
    have h2 := List.of_mem_filter hmem'
    exact h2
  have hstep : remote.filter (fun r => startKeyLE (StartKey.key ((s.get ⟨i, h⟩).id)) r.id) =
      (remote.filter (fun r => startKeyLE cursor r.id)).filter
        (fun r => startKeyLE (StartKey.key ((s.get ⟨i, h⟩).id)) r.id) := by
    rw [List.filter_filter]
    apply List.filter_congr
    intro a _
    cases hq : startKeyLE (StartKey.key ((s.get ⟨i, h⟩).id)) a.id
    · simp
    · have hle : (s.get ⟨i, h⟩).id.toList ≤ a.id.toList := of_decide_eq_true hq
      have hca : startKeyLE cursor a.id = true := startKeyLE_trans cursor _ _ hcur hle
      simp [hca]
  rw [hstep, hfil]
  simpa [startKeyLE] using sorted_filter_ge_drop s hsorted i h

/-! ### The iteration loop computes the reference trace -/

lemma iterAux_eq_traceFor (remote : List Row) (L : Nat) (hL : 0 < L)
    (hs : SortedById remote) :
    ∀ (fuel : Nat) (s : List Row) (cursor : StartKey),
      remote.filter (fun r => startKeyLE cursor r.id) = s →
      s.length < fuel →
      iterAux remote L fuel cursor = some (traceFor L fuel cursor s) := by
  intro fuel
  induction fuel with
  | zero => intro s cursor _ hlen; exact absurd hlen (by omega)
  | succ fuel ih =>
    intro s cursor hfil hlen
    have hdocs : all_docs remote (some cursor) (some (L + 1)) = s.take (L + 1) := by
      simp only [all_docs]
      rw [hfil]
    by_cases hcase : L < s.length
    · have hlen_take : (s.take (L + 1)).length = L + 1 := by
        rw [List.length_take]; omega
      have hlt : L < (s.take (L + 1)).length := by omega
      have hgl : (s.take (L + 1)).getLast? = some (s.get ⟨L, hcase⟩) := by
        rw [List.getLast?_eq_getElem?, hlen_take]
        simp only [Nat.add_sub_cancel, List.getElem?_take, Nat.lt_succ_self, if_pos]
        exact List.getElem?_eq_getElem hcase
      have hdrop : (s.take (L + 1)).dropLast = s.take L := by
        rw [List.dropLast_eq_take, hlen_take, List.take_take]
        congr 1
        omega
      have hfil' := filter_cursor_advance remote hs cursor s hfil L hcase
      have hrec := ih (s.drop L) (StartKey.key ((s.get ⟨L, hcase⟩).id)) hfil'
        (by rw [List.length_drop]; omega)
      simp only [iterAux, hdocs, hlt, if_pos, hgl, hrec, hdrop]
      simp only [traceFor, hcase, dif_pos]
    · have hle : s.length ≤ L := by omega
      have htake : s.take (L + 1) = s := List.take_of_length_le (by omega)
      simp only [iterAux, hdocs, htake]
      rw [if_neg hcase]
      simp only [traceFor]
      rw [dif_neg hcase]

lemma yieldedRows_traceFor (L : Nat) (hL : 0 < L) :
    ∀ (fuel : Nat) (s : List Row) (cursor : StartKey), s.length < fuel →
      yieldedRows (traceFor L fuel cursor s) = s := by
  intro fuel
  induction fuel with
  | zero => intro s cursor hlen; exact absurd hlen (by omega)
  | succ fuel ih =>
    intro s cursor hlen
    by_cases hcase : L < s.length
    · have hrec := ih (s.drop L) (StartKey.key ((s.get ⟨L, hcase⟩).id))
        (by rw [List.length_drop]; omega)
      simp only [traceFor, hcase, dif_pos, yieldedRows, yieldedRows_append,
        yieldedRows_yieldPass, hrec]
      exact List.take_append_drop L s
    · simp only [traceFor, hcase, dif_neg, not_false_iff, yieldedRows,
        yieldedRows_yieldPass]

lemma traceFor_pages (L : Nat) (hL : 0 < L) :
    ∀ (k : Nat) (fuel : Nat) (s : List Row) (cursor : StartKey),
      s.length = (k + 1) * L → s.length < fuel →
      fetchCount (traceFor L fuel cursor s) = k + 1 ∧
      afterLastFetch (traceFor L fuel cursor s) = yieldPass (s.drop (s.length - L)) := by
  intro k
  induction k with
  | zero =>
    intro fuel s cursor hkL hlen
    have hsl : s.length = L := by omega
    cases fuel with
    | zero => exact absurd hlen (by omega)
    | succ f =>
      have hcase : ¬ L < s.length := by omega
      constructor
      · simp only [traceFor, hcase, dif_neg, not_false_iff, fetchCount,
          fetchCount_yieldPass]
      · simp only [traceFor, hcase, dif_neg, not_false_iff, afterLastFetch,
          afterLastFetchAux]
        rw [afterLastFetchAux_self _ (fetchCount_yieldPass s) []]
        simp [hsl]
  | succ k ih =>
    intro fuel s cursor hkL hlen
    have hm : L ≤ (k + 1) * L := Nat.le_mul_of_pos_left L (by omega)
    have h2 : s.length = (k + 1) * L + L := by
      rw [hkL]; ring
    have hcase : L < s.length := by omega
    cases fuel with
    | zero => exact absurd hlen (by omega)
    | succ f =>
      have hlen' : (s.drop L).length = (k + 1) * L := by
        rw [List.length_drop]; omega
      have hf : (k + 1) * L + L ≤ f := by
        rw [← h2]; omega
      have hlen'' : (s.drop L).length < f := by
        rw [hlen']; omega
      have hrec := ih f (s.drop L) (StartKey.key ((s.get ⟨L, hcase⟩).id)) hlen' hlen''
      constructor
      · simp only [traceFor, hcase, dif_pos, fetchCount, fetchCount_append,
          fetchCount_yieldPass, hrec.1]
        omega
      · simp only [traceFor, hcase, dif_pos, afterLastFetch, afterLastFetchAux]
        rw [afterLastFetchAux_nofetch _ (fetchCount_yieldPass (s.take L)) []]
        have hpos : 0 < fetchCount (traceFor L f (StartKey.key ((s.get ⟨L, hcase⟩).id)) (s.drop L)) := by
          rw [hrec.1]; omega
        rw [afterLastFetchAux_irrel _ hpos _ []]
        have := hrec.2
        rw [afterLastFetch] at this
        rw [this, hlen', List.drop_drop]
        have harith : L + ((k + 1) * L - L) = s.length - L := by omega
        rw [harith]

/-! ### C1: pagination termination and boundary exactness -/

/-- C1 (amended): for a sorted remote store of N documents and fetch limit
L ≥ 1, the remote iteration terminates within N+1 loop passes, yields exactly
the N documents in order, and when N is a positive exact multiple of L
(N = k·L, k ≥ 1) it fetches exactly k pages and the final page carries exactly
L rows, all of them yielded — no extra empty page is requested. -/
theorem c1_pagination_terminates (remote : List Row) (L : Nat) (cache : Cache)
    (hL : 1 ≤ L) (hs : SortedById remote) :
    ∃ tr, iterDB remote L cache true (remote.length + 1) = some tr ∧
      yieldedRows tr = remote ∧
      (yieldedRows tr).length = remote.length ∧
      ∀ k, 1 ≤ k → remote.length = k * L →
        fetchCount tr = k ∧ (yieldedRows (afterLastFetch tr)).length = L := by
  have hfil : remote.filter (fun r => startKeyLE StartKey.beginning r.id) = remote :=
    List.filter_eq_self.mpr (fun a _ => rfl)
  have hiter := iterAux_eq_traceFor remote L (by omega) hs (remote.length + 1) remote
    StartKey.beginning hfil (by omega)
  refine ⟨traceFor L (remote.length + 1) StartKey.beginning remote, ?_, ?_, ?_, ?_⟩
  · simpa [iterDB] using hiter
  · exact yieldedRows_traceFor L (by omega) (remote.length + 1) remote
      StartKey.beginning (by omega)
  · rw [yieldedRows_traceFor L (by omega) (remote.length + 1) remote
      StartKey.beginning (by omega)]
  · intro k hk hkL
    obtain ⟨j, rfl⟩ : ∃ j, k = j + 1 := ⟨k - 1, by omega⟩
    have hp := traceFor_pages L (by omega) j (remote.length + 1) remote
      StartKey.beginning hkL (by omega)
    refine ⟨hp.1, ?_⟩
    rw [hp.2, yieldedRows_yieldPass, List.length_drop]
    have hle : L ≤ remote.length := by
      rw [hkL]
      have := Nat.le_mul_of_pos_left L (show 0 < j + 1 by omega)
      omega
    omega

/-- C1 (counterexample to the claim as stated): with N = 0 documents and
L = 1, N is an exact multiple of L (0 = 0·1), yet the single page fetched by
the iteration is empty — the final page carries 0 rows, not L = 1.  The claim
therefore fails at N = 0; it holds for positive multiples. -/
theorem c1_counterexample :
    iterDB ([] : List Row) 1 [] true 1 = some [Event.fetchPage StartKey.beginning 2] ∧
    (0 : Nat) = 0 * 1 ∧
    (yieldedRows (afterLastFetch [Event.fetchPage StartKey.beginning 2])).length ≠ 1 := by
  refine ⟨by decide, rfl, by decide⟩

/-- C1 witness: a store of 4 documents with limit 2 — 4 = 2·2 — yields all 4
documents in 2 page fetches, and the final page yields exactly 2 rows. -/
theorem c1_witness :
    iterDB [Row.mk "a" "da", Row.mk "b" "db", Row.mk "c" "dc", Row.mk "d" "dd"]
        2 [] true 5 =
      some [Event.fetchPage StartKey.beginning 3,
        Event.cachePut "a" "da", Event.yieldRow (Row.mk "a" "da"),
        Event.cachePut "b" "db", Event.yieldRow (Row.mk "b" "db"),
        Event.fetchPage (StartKey.key "c") 3,
        Event.cachePut "c" "dc", Event.yieldRow (Row.mk "c" "dc"),
        Event.cachePut "d" "dd", Event.yieldRow (Row.mk "d" "dd")] ∧
    fetchCount [Event.fetchPage StartKey.beginning 3,
        Event.cachePut "a" "da", Event.yieldRow (Row.mk "a" "da"),
        Event.cachePut "b" "db", Event.yieldRow (Row.mk "b" "db"),
        Event.fetchPage (StartKey.key "c") 3,
        Event.cachePut "c" "dc", Event.yieldRow (Row.mk "c" "dc"),
        Event.cachePut "d" "dd", Event.yieldRow (Row.mk "d" "dd")] = 2 ∧
    (yieldedRows (afterLastFetch [Event.fetchPage StartKey.beginning 3,
        Event.cachePut "a" "da", Event.yieldRow (Row.mk "a" "da"),
        Event.cachePut "b" "db", Event.yieldRow (Row.mk "b" "db"),
        Event.fetchPage (StartKey.key "c") 3,
        Event.cachePut "c" "dc", Event.yieldRow (Row.mk "c" "dc"),
        Event.cachePut "d" "dd", Event.yieldRow (Row.mk "d" "dd")])).length = 2 := by
  obtain ⟨tr, h1, _h2, _h3, h4⟩ := c1_pagination_terminates
    [Row.mk "a" "da", Row.mk "b" "db", Row.mk "c" "dc", Row.mk "d" "dd"] 2 []
    (by omega) (by unfold SortedById; decide)
  have h1' : iterDB [Row.mk "a" "da", Row.mk "b" "db", Row.mk "c" "dc", Row.mk "d" "dd"]
      2 [] true 5 = some tr := h1
  have hT : iterDB [Row.mk "a" "da", Row.mk "b" "db", Row.mk "c" "dc", Row.mk "d" "dd"]
      2 [] true 5 =
      some [Event.fetchPage StartKey.beginning 3,
        Event.cachePut "a" "da", Event.yieldRow (Row.mk "a" "da"),
        Event.cachePut "b" "db", Event.yieldRow (Row.mk "b" "db"),
        Event.fetchPage (StartKey.key "c") 3,
        Event.cachePut "c" "dc", Event.yieldRow (Row.mk "c" "dc"),
        Event.cachePut "d" "dd", Event.yieldRow (Row.mk "d" "dd")] := by decide
  have htr : tr = [Event.fetchPage StartKey.beginning 3,
      Event.cachePut "a" "da", Event.yieldRow (Row.mk "a" "da"),
      Event.cachePut "b" "db", Event.yieldRow (Row.mk "b" "db"),
      Event.fetchPage (StartKey.key "c") 3,
      Event.cachePut "c" "dc", Event.yieldRow (Row.mk "c" "dc"),
      Event.cachePut "d" "dd", Event.yieldRow (Row.mk "d" "dd")] :=
    Option.some.inj (h1'.symm.trans hT)
  subst htr
  have h5 := h4 2 (by omega) (by rfl)
  exact ⟨hT, h5.1, h5.2⟩

/-! ### C2: cursor advancement -/

lemma iterAux_head (remote : List Row) (L : Nat) (fuel : Nat) (cursor : StartKey)
    (tr : List Event) (h : iterAux remote L fuel cursor = some tr) :
    ∃ tl, tr = Event.fetchPage cursor (L + 1) :: tl := by
  cases fuel with
  | zero => simp [iterAux] at h
  | succ f =>
    simp only [iterAux] at h
    split at h
    · split at h
      · exact absurd h (by simp)
      · split at h
        · exact absurd h (by simp)
        · exact ⟨_, (Option.some.inj h).symm⟩
    · exact ⟨_, (Option.some.inj h).symm⟩

lemma sorted_getLast_lt (docs : List Row)
    (hsort : docs.Pairwise (fun a b => a.id.toList < b.id.toList))
    (lastRow : Row) (hgl : docs.getLast? = some lastRow) :
    ∀ x ∈ docs.dropLast, x.id.toList < lastRow.id.toList := by
  intro x hx
  rw [List.dropLast_eq_take] at hx
  obtain ⟨i, hi, hxi⟩ := List.getElem_of_mem hx
  have hi' : i < docs.length - 1 := by
    have h2 := hi
    rw [List.length_take] at h2
    omega
  have hne : docs ≠ [] := by
    intro hnil
    rw [hnil] at hgl
    simp at hgl
  have hlen : docs.length - 1 < docs.length := by
    cases docs with
    | nil => exact absurd rfl hne
    | cons a t => simp
  have hgl' : docs[docs.length - 1] = lastRow := by
    rw [List.getLast?_eq_getElem?, List.getElem?_eq_getElem hlen] at hgl
    exact Option.some.inj hgl
  have hx' : docs[i] = x := by
    rw [← hxi]
    exact (List.getElem_take docs).symm
  rw [← hgl', ← hx']
  exact List.pairwise_iff_getElem.mp hsort i (docs.length - 1) (by omega) hlen hi'

lemma cachePut_mem_yieldPass (rows : List Row) (i d : String)
    (h : Event.cachePut i d ∈ yieldPass rows) : ∃ r ∈ rows, r.id = i := by
  induction rows with
  | nil => simp [yieldPass] at h
  | cons r rs ih =>
    simp only [yieldPass, List.mem_cons] at h
    rcases h with h | h | h
    · exact ⟨r, by simp, by injection h with h1 h2; exact h1.symm⟩
    · exact absurd h (by simp)
    · obtain ⟨r', hr', hid⟩ := ih h
      exact ⟨r', by simp [hr'], hid⟩

/-- C2: in any run of the remote iteration loop, a pass whose page holds more
than `fetch_limit` rows removes the last row, uses its identifier as the new
cursor — the very next page request carries it as `startkey` — and neither
yields nor caches that row in the pass; a pass whose page holds at most
`fetch_limit` rows yields the whole page and performs no further page
request. -/
theorem c2_cursor_advancement (remote : List Row) (L : Nat) (fuel : Nat)
    (cursor : StartKey) (tr : List Event)
    (hL : 1 ≤ L) (hs : SortedById remote)
    (htr : iterAux remote L (fuel + 1) cursor = some tr) :
    (L < (all_docs remote (some cursor) (some (L + 1))).length →
       ∃ lastRow rest,
         (all_docs remote (some cursor) (some (L + 1))).getLast? = some lastRow ∧
         iterAux remote L fuel (StartKey.key lastRow.id) = some rest ∧
         tr = Event.fetchPage cursor (L + 1) ::
           (yieldPass (all_docs remote (some cursor) (some (L + 1))).dropLast ++ rest) ∧
         (∃ tl, rest = Event.fetchPage (StartKey.key lastRow.id) (L + 1) :: tl) ∧
         lastRow ∉
           yieldedRows (yieldPass (all_docs remote (some cursor) (some (L + 1))).dropLast) ∧
         (∀ d, Event.cachePut lastRow.id d ∉
           yieldPass (all_docs remote (some cursor) (some (L + 1))).dropLast)) ∧
    ((all_docs remote (some cursor) (some (L + 1))).length ≤ L →
       tr = Event.fetchPage cursor (L + 1) ::
         yieldPass (all_docs remote (some cursor) (some (L + 1))) ∧
       fetchCount tr = 1) := by
  have hsort : (all_docs remote (some cursor) (some (L + 1))).Pairwise
      (fun a b => a.id.toList < b.id.toList) := by
    apply List.Pairwise.sublist _ hs
    simp only [all_docs]
    exact (List.take_sublist _ _).trans (List.filter_sublist remote)
  constructor
  · intro hcase
    simp only [iterAux] at htr
    rw [if_pos hcase] at htr
    split at htr
    · exact absurd htr (by simp)
    · rename_i lastRow hgl
      split at htr
      · exact absurd htr (by simp)
      · rename_i rest hrec
        have hlt := sorted_getLast_lt _ hsort lastRow hgl
        refine ⟨lastRow, rest, hgl, hrec, (Option.some.inj htr).symm,
          iterAux_head remote L fuel (StartKey.key lastRow.id) rest hrec, ?_, ?_⟩
        · rw [yieldedRows_yieldPass]
          intro hmem
          exact absurd (hlt lastRow hmem) (lt_irrefl _)
        · intro d hmem
          obtain ⟨r, hr, hid⟩ := cachePut_mem_yieldPass _ _ _ hmem
          have hlt' := hlt r hr
          rw [hid] at hlt'
          exact absurd hlt' (lt_irrefl _)
  · intro hcase
    simp only [iterAux] at htr
    rw [if_neg (by omega)] at htr
    refine ⟨(Option.some.inj htr).symm, ?_⟩
    rw [(Option.some.inj htr).symm]
    simp [fetchCount, fetchCount_yieldPass]

/-- C2 witness: with documents a, b, c and limit 1, the first page [a, b] has
2 > 1 rows; b is popped, not yielded in that pass, and the next request starts
at b. -/
theorem c2_witness :
    Row.mk "b" "db" ∉ yieldedRows (yieldPass
      ((all_docs [Row.mk "a" "da", Row.mk "b" "db", Row.mk "c" "dc"]
        (some StartKey.beginning) (some 2)).dropLast)) ∧
    (∃ tl, [Event.fetchPage (StartKey.key "b") 2,
        Event.cachePut "b" "db", Event.yieldRow (Row.mk "b" "db"),
        Event.fetchPage (StartKey.key "c") 2,
        Event.cachePut "c" "dc", Event.yieldRow (Row.mk "c" "dc")] =
      Event.fetchPage (StartKey.key "b") 2 :: tl) := by
  have h := c2_cursor_advancement [Row.mk "a" "da", Row.mk "b" "db", Row.mk "c" "dc"]
    1 2 StartKey.beginning
    [Event.fetchPage StartKey.beginning 2,
      Event.cachePut "a" "da", Event.yieldRow (Row.mk "a" "da"),
      Event.fetchPage (StartKey.key "b") 2,
      Event.cachePut "b" "db", Event.yieldRow (Row.mk "b" "db"),
      Event.fetchPage (StartKey.key "c") 2,
      Event.cachePut "c" "dc", Event.yieldRow (Row.mk "c" "dc")]
    (by omega) (by unfold SortedById; decide) (by decide)
  obtain ⟨lastRow, rest, hgl, hrec, htr, hhead, hnotyield, _hnotcache⟩ := h.1 (by decide)
  have hlast : lastRow = Row.mk "b" "db" := by
    have hconc : (all_docs [Row.mk "a" "da", Row.mk "b" "db", Row.mk "c" "dc"]
        (some StartKey.beginning) (some 2)).getLast? = some (Row.mk "b" "db") := by decide
    rw [hconc] at hgl
    exact (Option.some.inj hgl).symm
  have hrest : rest = [Event.fetchPage (StartKey.key "b") 2,
      Event.cachePut "b" "db", Event.yieldRow (Row.mk "b" "db"),
      Event.fetchPage (StartKey.key "c") 2,
      Event.cachePut "c" "dc", Event.yieldRow (Row.mk "c" "dc")] := by
    rw [hlast] at hrec
    have hconc : iterAux [Row.mk "a" "da", Row.mk "b" "db", Row.mk "c" "dc"] 1 2
        (StartKey.key "b") =
        some [Event.fetchPage (StartKey.key "b") 2,
          Event.cachePut "b" "db", Event.yieldRow (Row.mk "b" "db"),
          Event.fetchPage (StartKey.key "c") 2,
          Event.cachePut "c" "dc", Event.yieldRow (Row.mk "c" "dc")] := by decide
    exact Option.some.inj (hrec.symm.trans hconc)
  constructor
  · rw [hlast] at hnotyield
    exact hnotyield
  · obtain ⟨tl, htl⟩ := hhead
    rw [hrest, hlast] at htl
    exact ⟨tl, htl⟩

/-! ### C3: cache registration precedes every yield -/

lemma cb_yieldPass_append (rows : List Row) (rest : List Event)
    (hrest : ∀ p, cbAux p rest = true) :
    ∀ p, cbAux p (yieldPass rows ++ rest) = true := by
  induction rows with
  | nil => intro p; simpa using hrest p
  | cons r rs ih =>
    intro p
    simp only [yieldPass, List.cons_append, cbAux, Bool.and_eq_true]
    exact ⟨trivial, by simp, ih (some (Event.yieldRow r))⟩

lemma cb_iterAux (remote : List Row) (L : Nat) :
    ∀ (fuel : Nat) (cursor : StartKey) (tr : List Event),
      iterAux remote L fuel cursor = some tr → ∀ p, cbAux p tr = true := by
  intro fuel
  induction fuel with
  | zero => intro cursor tr h; simp [iterAux] at h
  | succ f ih =>
    intro cursor tr h
    simp only [iterAux] at h
    split at h
    · split at h
      · exact absurd h (by simp)
      · split at h
        · exact absurd h (by simp)
        · rename_i lastRow _ rest hrec
          intro p
          rw [← Option.some.inj h]
          simp only [cbAux, Bool.and_eq_true]
          exact ⟨trivial, cb_yieldPass_append _ rest (ih _ rest hrec)
            (some (Event.fetchPage cursor (L + 1)))⟩
    · intro p
      rw [← Option.some.inj h]
      simp only [cbAux, Bool.and_eq_true]
      refine ⟨trivial, ?_⟩
      have hnil : ∀ q, cbAux q ([] : List Event) = true := fun q => rfl
      have := cb_yieldPass_append (all_docs remote (some cursor) (some (L + 1))) [] hnil
        (some (Event.fetchPage cursor (L + 1)))
      simpa using this

lemma cb_position :
    ∀ (tr : List Event) (p : Option Event), cbAux p tr = true →
      ∀ (i : Nat) (r : Row), tr[i]? = some (Event.yieldRow r) →
        (∃ j, i = j + 1 ∧ tr[j]? = some (Event.cachePut r.id r.doc)) ∨
        (i = 0 ∧ p = some (Event.cachePut r.id r.doc)) := by
  intro tr
  induction tr with
  | nil => intro p _ i r h; simp at h
  | cons e es ih =>
    intro p hcb i r hi
    simp only [cbAux, Bool.and_eq_true] at hcb
    obtain ⟨h1, h2⟩ := hcb
    cases i with
    | zero =>
      have he : e = Event.yieldRow r := by simpa using hi
      subst he
      right
      exact ⟨rfl, of_decide_eq_true h1⟩
    | succ j =>
      have hi' : es[j]? = some (Event.yieldRow r) := by simpa using hi
      rcases ih (some e) h2 j r hi' with ⟨j', hj', hput⟩ | ⟨hj0, hpe⟩
      · left
        refine ⟨j' + 1, by omega, ?_⟩
        simpa using hput
      · left
        refine ⟨0, by omega, ?_⟩
        have he : e = Event.cachePut r.id r.doc := Option.some.inj hpe
        simp [he]

lemma lookup_cacheStateOf (tr : List Event) (i : Nat) (r : Row)
    (hy : tr[i]? = some (Event.yieldRow r))
    (hp : ∃ j, i = j + 1 ∧ tr[j]? = some (Event.cachePut r.id r.doc)) :
    List.lookup r.id (cacheStateOf (tr.take (i + 1))) = some r.doc := by
  obtain ⟨j, rfl, hput⟩ := hp
  have h1 : tr.take (j + 1) = tr.take j ++ [Event.cachePut r.id r.doc] := by
    rw [List.take_succ, hput]
    rfl
  have h2 : tr.take (j + 1 + 1) = tr.take (j + 1) ++ [Event.yieldRow r] := by
    rw [List.take_succ, hy]
    rfl
  rw [h2, h1, cacheStateOf, List.foldl_append, List.foldl_append]
  simp [applyEvent, List.lookup]

/-- C3: in every remote iteration trace, a yielded row is registered in the
local cache immediately before it is yielded — the event preceding every
`yield` is the cache write of that row's identifier to its document content,
and replaying the trace up to and including the yield leaves the cache mapping
the identifier to that content. -/
theorem c3_cache_before_yield (remote : List Row) (L : Nat) (cache : Cache)
    (fuel : Nat) (tr : List Event)
    (htr : iterDB remote L cache true fuel = some tr) :
    ∀ (i : Nat) (r : Row), tr[i]? = some (Event.yieldRow r) →
      ∃ j, i = j + 1 ∧ tr[j]? = some (Event.cachePut r.id r.doc) ∧
        List.lookup r.id (cacheStateOf (tr.take (i + 1))) = some r.doc := by
  intro i r hy
  have hiter : iterAux remote L fuel StartKey.beginning = some tr := by
    simpa [iterDB] using htr
  have hcb := cb_iterAux remote L fuel StartKey.beginning tr hiter none
  rcases cb_position tr none hcb i r hy with ⟨j, hj, hput⟩ | ⟨_, hne⟩
  · exact ⟨j, hj, hput, lookup_cacheStateOf tr i r hy ⟨j, hj, hput⟩⟩
  · exact absurd hne (by simp)

/-- C3 witness: iterating a one-document store with limit 1 produces the trace
fetch, cachePut, yield; after the yield at position 2 the cache maps the
identifier to the document content. -/
theorem c3_witness :
    List.lookup "a" (cacheStateOf ([Event.fetchPage StartKey.beginning 2,
      Event.cachePut "a" "da", Event.yieldRow (Row.mk "a" "da")].take 3)) =
      some "da" := by
  obtain ⟨j, _hj, _hput, hlook⟩ := c3_cache_before_yield [Row.mk "a" "da"] 1 [] 2
    [Event.fetchPage StartKey.beginning 2, Event.cachePut "a" "da",
     Event.yieldRow (Row.mk "a" "da")] (by decide) 2 (Row.mk "a" "da") (by decide)
  exact hlook
